import Mathlib

/-!
# Verification of the `irpf_report` reconciliation core

A shallow embedding of the investment-reconciliation engine of the
`irpf-report` repository (`src/irpf_report/investments.py`,
`src/irpf_report/assets.py`, `src/irpf_report/inventory.py`), together with
proofs about its accounting rules.

Modelling conventions:
* Python `Decimal` values are embedded as exact rationals (`ℚ`); all the
  operations the core performs on them (addition, subtraction, negation,
  equality) are exact in both representations.
* Python `int` quantities are embedded as `ℤ` and cast to `ℚ` where the
  source mixes them with `Decimal` totals.
* `datetime.date` is embedded as a year/month/day triple compared
  lexicographically, which is how Python compares dates.
* Methods that mutate `self` in place are embedded as functions returning
  the updated record; a method that can raise returns the post-state paired
  with an optional error message, mirroring the fact that in the source the
  raise happens before any field assignment.
* The `operation` field of a `Transaction` is annotated `Operation` in the
  source, but Python does not enforce annotations at runtime and
  `add_transaction` has an explicit defensive branch for any other value.
  The runtime content of the field is therefore embedded as `OpValue`:
  either a genuine member of the `Operation` enum or some other value,
  carried with its textual representation.
-/

/-- `datetime.date`: compared lexicographically by (year, month, day). -/
structure Date where
  year : Nat
  month : Nat
  day : Nat
deriving DecidableEq

/-- Python `date` strict comparison `a < b`, lexicographic on
(year, month, day). -/
def Date.ltb (a b : Date) : Bool :=
  if a.year ≠ b.year then a.year < b.year
  else if a.month ≠ b.month then a.month < b.month
  else a.day < b.day

/-- The default `latest_sell_date` of an `Investment`:
`date(year=1970, month=1, day=1)`. -/
def epochDate : Date := ⟨1970, 1, 1⟩

/-- `asset_types.StockType` enum. -/
inductive StockType where
  | on
  | pn
  | unit
deriving DecidableEq

/-- The concrete `StockExchangeListed` subclasses defined in `assets.py`. -/
inductive ListedKind where
  | stock
  | etf
  | bdr
  | fii
  | fiiReceipt
  | fidc
deriving DecidableEq

/-- The concrete `FixedIncome` subclasses defined in `assets.py`. -/
inductive FixedIncomeKind where
  | cdb
  | lci
  | lca
  | treasury
deriving DecidableEq

/-- Fields added by `StockExchangeListed` on top of the `Asset` base. -/
structure ListedData where
  ticker : String
  cnpj : Option String := none
  type : Option StockType := none
deriving DecidableEq

/-- Fields added by `FixedIncome` on top of the `Asset` base. -/
structure FixedIncomeData where
  maturity_date : Date
  issuer : Option String := none
deriving DecidableEq

/-- The subclass-specific part of an asset: either one of the
`StockExchangeListed` variants or one of the `FixedIncome` variants. -/
inductive AssetData where
  | listed (kind : ListedKind) (d : ListedData)
  | fixedIncome (kind : FixedIncomeKind) (d : FixedIncomeData)
deriving DecidableEq

/-- `assets.Asset`: base fields `name` and `broker` plus the
subclass-specific data. -/
structure Asset where
  name : String
  broker : String
  data : AssetData
deriving DecidableEq

/-- `Asset.key` property: the ticker for exchange-listed assets, the
`"{name} - {broker}"` composite for fixed income. -/
def Asset.key (a : Asset) : String :=
  match a.data with
  | .listed _ d => d.ticker
  | .fixedIncome _ _ => a.name ++ " - " ++ a.broker

/-- Modelled from the spec: `is_listed` is called by the accumulator
(`investments.py`) but not defined under the sources; per the spec, the
asset catalog supplies a listed/not-listed capability flag, true for the
exchange-listed asset kinds and false for fixed income. -/
def Asset.is_listed (a : Asset) : Bool :=
  match a.data with
  | .listed _ _ => true
  | .fixedIncome _ _ => false

/-- `Asset.get_cnpj`: `"N/A"` on the base class (fixed income); on listed
assets `"Desconhecido"` when unset, the raw value when not 14 digits long,
and the `xx.xxx.xxx/xxxx-xx` formatting otherwise. -/
def Asset.get_cnpj (a : Asset) : String :=
  match a.data with
  | .fixedIncome _ _ => "N/A"
  | .listed _ d =>
    match d.cnpj with
    | none => "Desconhecido"
    | some c =>
      if c.length ≠ 14 then c
      else (c.take 2) ++ "." ++ ((c.drop 2).take 3) ++ "." ++
        ((c.drop 5).take 3) ++ "/" ++ ((c.drop 8).take 4) ++ "-" ++ (c.drop 12)

/-- Modelled from the spec: `update_cnpj` is called by the registry
(`inventory.py`) but not defined under the sources; per the spec, it
backfills the asset's mutable CNPJ field when a more specific value is
available on the incoming source than what is already stored. Only listed
assets carry a CNPJ field; the placeholder strings returned by `get_cnpj`
for absent data are not specific values. -/
def Asset.update_cnpj (a : Asset) (c : String) : Asset :=
  match a.data with
  | .fixedIncome _ _ => a
  | .listed k d =>
    if d.cnpj = none ∧ c ≠ "Desconhecido" ∧ c ≠ "N/A" then
      { a with data := .listed k { d with cnpj := some c } }
    else a

/-- `investments.Operation` enum: the two members `BUY` and `SELL`. -/
inductive Operation where
  | buy
  | sell
deriving DecidableEq

/-- The runtime value stored in `Transaction.operation`: a genuine
`Operation` member, or any other value together with its textual
representation (Python annotations are not enforced at runtime, and
`add_transaction` has a defensive branch for this case). -/
inductive OpValue where
  | op (o : Operation)
  | invalid (repr : String)
deriving DecidableEq

/-- `investments.Transaction` dataclass. -/
structure Transaction where
  date : Date
  operation : OpValue
  broker : String
  ticker : String
  quantity : ℤ
  price : ℚ
  total_amount : ℚ
deriving DecidableEq

/-- `investments.Position` dataclass. -/
structure Position where
  asset : Asset
  quantity : ℚ
  invested_amount : ℚ := 0
deriving DecidableEq

/-- `investments.Investment` dataclass, with the source's field defaults. -/
structure Investment where
  asset : Asset
  current_invested_amount : ℚ := 0
  current_quantity : ℚ := 0
  previous_invested_amount : ℚ := 0
  previous_quantity : ℚ := 0
  transactions_balance_quantity : ℚ := 0
  transactions_balance_amount : ℚ := 0
  transactions : List Transaction := []
  latest_sell_date : Date := epochDate
deriving DecidableEq

/-- A freshly constructed `Investment(asset=asset)`: every total at its
zero default. -/
def Investment.fresh (a : Asset) : Investment := { asset := a }

/-- `Investment.add_current_position`. -/
def Investment.add_current_position (self : Investment) (p : Position) :
    Investment :=
  { self with
    current_quantity := self.current_quantity + p.quantity
    current_invested_amount := self.current_invested_amount + p.invested_amount }

/-- `Investment.add_previous_position`. -/
def Investment.add_previous_position (self : Investment) (p : Position) :
    Investment :=
  let self := { self with
    previous_quantity := self.previous_quantity + p.quantity
    previous_invested_amount := self.previous_invested_amount + p.invested_amount }
  if self.asset.is_listed then
    { self with
      current_invested_amount := self.current_invested_amount + p.invested_amount }
  else self

/-- The message of the `ValueError` raised by `add_transaction` on an
operation that is neither `BUY` nor `SELL`. -/
def invalidTransactionMessage (key opRepr : String) : String :=
  "Invalid transaction for " ++ key ++ ": operation = " ++ opRepr

/-- `Investment.add_transaction`: returns the post-state of `self` paired
with the raised error message, if any. In the source the `raise` sits in
the `else` branch before any field assignment and before the final
`self.transactions.append(transaction)`, so on error the state is
unchanged and nothing is appended. -/
def Investment.add_transaction (self : Investment) (t : Transaction) :
    Investment × Option String :=
  match t.operation with
  | .op .buy =>
    ({ self with
        transactions_balance_quantity :=
          self.transactions_balance_quantity + (t.quantity : ℚ)
        transactions_balance_amount :=
          self.transactions_balance_amount + t.total_amount
        current_invested_amount :=
          self.current_invested_amount + t.total_amount
        transactions := self.transactions ++ [t] }, none)
  | .op .sell =>
    ({ self with
        transactions_balance_quantity :=
          self.transactions_balance_quantity - (t.quantity : ℚ)
        transactions_balance_amount :=
          self.transactions_balance_amount - t.total_amount
        current_invested_amount :=
          self.current_invested_amount - t.total_amount
        latest_sell_date :=
          if self.latest_sell_date.ltb t.date then t.date
          else self.latest_sell_date
        transactions := self.transactions ++ [t] }, none)
  | .invalid r =>
    (self, some (invalidTransactionMessage self.asset.key r))

/-- `Investment.is_closed`. -/
def Investment.is_closed (self : Investment) : Bool :=
  self.current_quantity = 0

/-- `Investment.result` property: `(previous_invested_amount +
transactions_balance_amount).copy_negate()`; `copy_negate` on an exact
decimal is numerically the negation. -/
def Investment.result (self : Investment) : ℚ :=
  -(self.previous_invested_amount + self.transactions_balance_amount)

/-- `Investment.has_missing_transactions`. -/
def Investment.has_missing_transactions (self : Investment) : Bool :=
  if ¬ self.asset.is_listed then false
  else self.previous_quantity + self.transactions_balance_quantity ≠
    self.current_quantity

/-- `Investment.repeat_amount`. -/
def Investment.repeat_amount (self : Investment) : Bool :=
  self.previous_invested_amount = self.current_invested_amount ∧
    self.previous_quantity = self.current_quantity

/-!
## The Inventory registry

`inventory.Inventory` keeps a Python `dict[str, Investment]`. Python
dictionaries preserve insertion order: assigning to an absent key appends
the entry, assigning to a present key updates it in place. The registry is
therefore embedded as an association list with exactly those two
behaviours (`setEntry`). In-place mutation of `self.investments[key]` is
embedded as looking the entry up, computing the updated record and storing
it back under the same key.
-/

/-- Lookup of `investments[k]` in the embedded registry: the value at the
first (and, by the registry invariant, only) entry with key `k`. -/
def lookupEntry (l : List (String × Investment)) (k : String) :
    Option Investment :=
  match l with
  | [] => none
  | (k₀, v₀) :: rest => if k₀ = k then some v₀ else lookupEntry rest k

/-- Assignment `investments[k] = v` in the embedded registry: replaces the
entry in place when the key is present, appends it otherwise — the
insertion-order behaviour of a Python dict. -/
def setEntry (l : List (String × Investment)) (k : String)
    (v : Investment) : List (String × Investment) :=
  match l with
  | [] => [(k, v)]
  | (k₀, v₀) :: rest =>
    if k₀ = k then (k₀, v) :: rest else (k₀, v₀) :: setEntry rest k v

/-- `inventory.Inventory`: the registry state. -/
structure Inventory where
  investments : List (String × Investment)

/-- `Inventory()` constructor: the empty registry. -/
def Inventory.empty : Inventory := ⟨[]⟩

/-- The keys of the registry, in insertion order. -/
def Inventory.keys (inv : Inventory) : List String :=
  inv.investments.map Prod.fst

/-- The loop body of `Inventory.add_current_positions` for one position:
get-or-create the `Investment` for the position's asset key (backfilling
the CNPJ when the entry already exists), then delegate to
`add_current_position`. -/
def Inventory.currentPositionStep (inv : Inventory) (p : Position) :
    Inventory :=
  let k := p.asset.key
  match lookupEntry inv.investments k with
  | none =>
    ⟨setEntry inv.investments k ((Investment.fresh p.asset).add_current_position p)⟩
  | some i =>
    let i := { i with asset := i.asset.update_cnpj p.asset.get_cnpj }
    ⟨setEntry inv.investments k (i.add_current_position p)⟩

/-- `Inventory.add_current_positions`. -/
def Inventory.add_current_positions (inv : Inventory)
    (ps : List Position) : Inventory :=
  ps.foldl Inventory.currentPositionStep inv

/-- The loop body of `Inventory.add_previous_positions` for one position:
same get-or-create and CNPJ backfill, delegating to
`add_previous_position`. -/
def Inventory.previousPositionStep (inv : Inventory) (p : Position) :
    Inventory :=
  let k := p.asset.key
  match lookupEntry inv.investments k with
  | none =>
    ⟨setEntry inv.investments k ((Investment.fresh p.asset).add_previous_position p)⟩
  | some i =>
    let i := { i with asset := i.asset.update_cnpj p.asset.get_cnpj }
    ⟨setEntry inv.investments k (i.add_previous_position p)⟩

/-- `Inventory.add_previous_positions`. -/
def Inventory.add_previous_positions (inv : Inventory)
    (ps : List Position) : Inventory :=
  ps.foldl Inventory.previousPositionStep inv

/-- The warning logged when a transaction references an absent ticker. -/
def missingTickerWarning (ticker : String) : String :=
  "Could not find a position for ticker: " ++ ticker

/-- `Inventory.add_transactions`: returns the final registry state, the
warnings logged for skipped transactions in order, and the error message
of the `ValueError` that aborted the loop, if any. A transaction whose
ticker has no entry is skipped with a warning and the loop continues; a
transaction whose operation is invalid raises, which stops the loop with
the registry as it stood (the failing `Investment` unmutated). -/
def Inventory.add_transactions (inv : Inventory) (ts : List Transaction) :
    Inventory × List String × Option String :=
  match ts with
  | [] => (inv, [], none)
  | t :: rest =>
    match lookupEntry inv.investments t.ticker with
    | none =>
      let (inv', ws, e) := inv.add_transactions rest
      (inv', missingTickerWarning t.ticker :: ws, e)
    | some i =>
      match i.add_transaction t with
      | (i', none) =>
        Inventory.add_transactions ⟨setEntry inv.investments t.ticker i'⟩ rest
      | (i', some e) =>
        (⟨setEntry inv.investments t.ticker i'⟩, [], some e)

/-- `Inventory.get_investments`: `list(self.investments.values())`. -/
def Inventory.get_investments (inv : Inventory) : List Investment :=
  inv.investments.map Prod.snd

/-- One call to one of the three registry merge operations. -/
inductive InventoryOp where
  | currents (ps : List Position)
  | previousPositions (ps : List Position)
  | txs (ts : List Transaction)

/-- Applying one merge operation to the registry (for `txs`, the registry
state it leaves behind, whether or not the call raised). -/
def Inventory.applyOp (inv : Inventory) (op : InventoryOp) : Inventory :=
  match op with
  | .currents ps => inv.add_current_positions ps
  | .previousPositions ps => inv.add_previous_positions ps
  | .txs ts => (inv.add_transactions ts).1

/-- The registry state after a sequence of merge operations, starting from
a fresh `Inventory()`. -/
def Inventory.applyOps (ops : List InventoryOp) : Inventory :=
  ops.foldl Inventory.applyOp Inventory.empty

/-- Repeated `add_transaction` on a single `Investment`, keeping the
post-state of each call. -/
def Investment.applyTransactions (inv : Investment)
    (ts : List Transaction) : Investment :=
  ts.foldl (fun i t => (i.add_transaction t).1) inv

/-!
## Registry lemmas

Facts about the embedded dict operations, used for the registry
invariants: lookup failure is absence from the key list, assignment to an
absent key appends it, assignment to a present key leaves the key list
unchanged.
-/

theorem lookupEntry_eq_none_iff (l : List (String × Investment))
    (k : String) :
    lookupEntry l k = none ↔ k ∉ l.map Prod.fst := by
  induction l with
  | nil => simp [lookupEntry]
  | cons p rest ih =>
    rcases p with ⟨k₀, v₀⟩
    by_cases hk : k₀ = k
    · subst hk; simp [lookupEntry]
    · rw [show lookupEntry ((k₀, v₀) :: rest) k = lookupEntry rest k from
        by simp [lookupEntry, hk]]
      simp only [List.map_cons, List.mem_cons, not_or]
      rw [ih]
      exact ⟨fun h => ⟨fun he => hk he.symm, h⟩, fun h => h.2⟩

theorem setEntry_keys_absent (l : List (String × Investment))
    (k : String) (v : Investment) (h : lookupEntry l k = none) :
    (setEntry l k v).map Prod.fst = l.map Prod.fst ++ [k] := by
  induction l with
  | nil => simp [setEntry]
  | cons p rest ih =>
    rcases p with ⟨k₀, v₀⟩
    by_cases hk : k₀ = k
    · simp [lookupEntry, hk] at h
    · simp only [lookupEntry, hk, if_false] at h
      simp [setEntry, hk, ih h]

theorem setEntry_keys_present (l : List (String × Investment))
    (k : String) (v i : Investment) (h : lookupEntry l k = some i) :
    (setEntry l k v).map Prod.fst = l.map Prod.fst := by
  induction l with
  | nil => simp [lookupEntry] at h
  | cons p rest ih =>
    rcases p with ⟨k₀, v₀⟩
    by_cases hk : k₀ = k
    · simp [setEntry, hk]
    · simp only [lookupEntry, hk, if_false] at h
      simp [setEntry, hk, ih h]

theorem lookupEntry_setEntry_self (l : List (String × Investment))
    (k : String) (v : Investment) :
    lookupEntry (setEntry l k v) k = some v := by
  induction l with
  | nil => simp [setEntry, lookupEntry]
  | cons p rest ih =>
    rcases p with ⟨k₀, v₀⟩
    by_cases hk : k₀ = k <;> simp [setEntry, lookupEntry, hk, ih]

/-- One `add_current_positions` loop iteration either leaves the key list
unchanged (key already present) or appends the new key. -/
theorem currentPositionStep_keys (inv : Inventory) (p : Position) :
    (inv.currentPositionStep p).keys = inv.keys ∨
    (lookupEntry inv.investments p.asset.key = none ∧
      (inv.currentPositionStep p).keys = inv.keys ++ [p.asset.key]) := by
  cases h : lookupEntry inv.investments p.asset.key with
  | none =>
    refine Or.inr ⟨rfl, ?_⟩
    simp [Inventory.currentPositionStep, Inventory.keys, h,
      setEntry_keys_absent _ _ _ h]
  | some i =>
    refine Or.inl ?_
    simp [Inventory.currentPositionStep, Inventory.keys, h,
      setEntry_keys_present _ _ _ _ h]

/-- One `add_previous_positions` loop iteration either leaves the key
list unchanged or appends the new key. -/
theorem previousPositionStep_keys (inv : Inventory) (p : Position) :
    (inv.previousPositionStep p).keys = inv.keys ∨
    (lookupEntry inv.investments p.asset.key = none ∧
      (inv.previousPositionStep p).keys = inv.keys ++ [p.asset.key]) := by
  cases h : lookupEntry inv.investments p.asset.key with
  | none =>
    refine Or.inr ⟨rfl, ?_⟩
    simp [Inventory.previousPositionStep, Inventory.keys, h,
      setEntry_keys_absent _ _ _ h]
  | some i =>
    refine Or.inl ?_
    simp [Inventory.previousPositionStep, Inventory.keys, h,
      setEntry_keys_present _ _ _ _ h]

/-- `add_transactions` never creates or removes a registry entry: the key
list is untouched, whether transactions are applied, skipped or abort the
loop. -/
theorem add_transactions_keys (ts : List Transaction) (inv : Inventory) :
    ((inv.add_transactions ts).1).keys = inv.keys := by
  induction ts generalizing inv with
  | nil => rfl
  | cons t rest ih =>
    cases h : lookupEntry inv.investments t.ticker with
    | none => simp [Inventory.add_transactions, h, ih inv]
    | some i =>
      rcases hadd : i.add_transaction t with ⟨i', e⟩
      cases e with
      | none =>
        simp only [Inventory.add_transactions, h, hadd]
        simpa [Inventory.keys, setEntry_keys_present _ _ _ _ h] using
          ih ⟨setEntry inv.investments t.ticker i'⟩
      | some msg =>
        simp [Inventory.add_transactions, h, hadd, Inventory.keys,
          setEntry_keys_present _ _ _ _ h]

/-- Folding a key-extending step over a list of inputs only ever appends
keys. -/
theorem foldl_keys_ext {α : Type} (f : Inventory → α → Inventory)
    (hf : ∀ (inv : Inventory) (a : α),
      ∃ new, (f inv a).keys = inv.keys ++ new) :
    ∀ (l : List α) (inv : Inventory),
      ∃ new, (l.foldl f inv).keys = inv.keys ++ new := by
  intro l
  induction l with
  | nil => exact fun inv => ⟨[], by simp⟩
  | cons a rest ih =>
    intro inv
    obtain ⟨n₁, h₁⟩ := hf inv a
    obtain ⟨n₂, h₂⟩ := ih (f inv a)
    exact ⟨n₁ ++ n₂, by simp [List.foldl_cons, h₂, h₁]⟩

/-- Folding a Nodup-preserving step over a list of inputs preserves
Nodup keys. -/
theorem foldl_keys_nodup {α : Type} (f : Inventory → α → Inventory)
    (hf : ∀ (inv : Inventory) (a : α),
      inv.keys.Nodup → (f inv a).keys.Nodup) :
    ∀ (l : List α) (inv : Inventory),
      inv.keys.Nodup → (l.foldl f inv).keys.Nodup := by
  intro l
  induction l with
  | nil => exact fun inv h => h
  | cons a rest ih => exact fun inv h => ih (f inv a) (hf inv a h)

/-- Every registry merge operation only ever appends keys (first-creation
order is preserved). -/
theorem applyOp_keys_ext (inv : Inventory) (op : InventoryOp) :
    ∃ new, (inv.applyOp op).keys = inv.keys ++ new := by
  cases op with
  | currents ps =>
    refine foldl_keys_ext _ ?_ ps inv
    intro inv p
    rcases currentPositionStep_keys inv p with h | ⟨_, h⟩
    exacts [⟨[], by simp [h]⟩, ⟨[p.asset.key], h⟩]
  | previousPositions ps =>
    refine foldl_keys_ext _ ?_ ps inv
    intro inv p
    rcases previousPositionStep_keys inv p with h | ⟨_, h⟩
    exacts [⟨[], by simp [h]⟩, ⟨[p.asset.key], h⟩]
  | txs ts => exact ⟨[], by simp [Inventory.applyOp, add_transactions_keys]⟩

/-- Every registry merge operation preserves distinctness of the keys. -/
theorem applyOp_keys_nodup (inv : Inventory) (op : InventoryOp)
    (h : inv.keys.Nodup) : (inv.applyOp op).keys.Nodup := by
  cases op with
  | currents ps =>
    refine foldl_keys_nodup _ ?_ ps inv h
    intro inv p hno
    rcases currentPositionStep_keys inv p with hk | ⟨habs, hk⟩
    · simpa [hk] using hno
    · rw [hk]
      have : p.asset.key ∉ inv.keys :=
        (lookupEntry_eq_none_iff _ _).mp habs
      simp [List.nodup_append, hno, this]
  | previousPositions ps =>
    refine foldl_keys_nodup _ ?_ ps inv h
    intro inv p hno
    rcases previousPositionStep_keys inv p with hk | ⟨habs, hk⟩
    · simpa [hk] using hno
    · rw [hk]
      have : p.asset.key ∉ inv.keys :=
        (lookupEntry_eq_none_iff _ _).mp habs
      simp [List.nodup_append, hno, this]
  | txs ts => simpa [Inventory.applyOp, add_transactions_keys] using h

/-!
## Concrete sample data used by witnesses and counterexamples
-/

/-- A concrete exchange-listed asset (a `Stock`). -/
def sampleStock : Asset :=
  ⟨"PETROBRAS PN - PETROBRAS", "NuInvest",
    .listed .stock ⟨"PETR4", none, some .pn⟩⟩

/-- A concrete fixed-income asset (a `CDB`). -/
def sampleCDB : Asset :=
  ⟨"CDB Banco Inter 2030", "Inter",
    .fixedIncome .cdb ⟨⟨2030, 1, 1⟩, some "Banco Inter"⟩⟩

/-- A previous-year position of quantity 100 and amount 1000 on the
sample fixed-income asset. -/
def sampleCDBPosition : Position := ⟨sampleCDB, 100, 1000⟩

/-- An `Investment` over the sample stock holding a current quantity of
100, all other totals at their defaults. -/
def stockInv100 : Investment :=
  { Investment.fresh sampleStock with current_quantity := 100 }

/-- A SELL transaction of quantity 100 on 2023-05-10 over the sample
stock. -/
def sellTx100 : Transaction :=
  ⟨⟨2023, 5, 10⟩, .op .sell, "NuInvest", "PETR4", 100, 8, 800⟩

/-!
## Claim theorems
-/

/-- **C1.** `add_previous_position` adds the position's quantity and
invested amount to `previous_quantity` and `previous_invested_amount`,
adds the invested amount to `current_invested_amount` exactly when the
asset is exchange-listed, and for a non-listed asset with
`current_invested_amount = 0` leaves it at 0. -/
theorem c1_add_previous_position (inv : Investment) (p : Position) :
    (inv.add_previous_position p).previous_quantity =
      inv.previous_quantity + p.quantity ∧
    (inv.add_previous_position p).previous_invested_amount =
      inv.previous_invested_amount + p.invested_amount ∧
    (inv.add_previous_position p).current_invested_amount =
      inv.current_invested_amount +
        (if inv.asset.is_listed then p.invested_amount else 0) ∧
    (inv.asset.is_listed = false → inv.current_invested_amount = 0 →
      (inv.add_previous_position p).current_invested_amount = 0) := by
  cases h : inv.asset.is_listed <;>
    simp [Investment.add_previous_position, h]

/-- Witness for C1 at a concrete input: the sample fixed-income asset is
not listed, and applying the 100/1000 previous position to a fresh
investment over it leaves `current_invested_amount` at 0. -/
theorem c1_add_previous_position_witness :
    sampleCDB.is_listed = false ∧
    ((Investment.fresh sampleCDB).add_previous_position
      sampleCDBPosition).current_invested_amount = 0 :=
  ⟨rfl, (c1_add_previous_position (Investment.fresh sampleCDB)
    sampleCDBPosition).2.2.2 rfl rfl⟩

/-- **C2.** `result` is the exact negation of `previous_invested_amount +
transactions_balance_amount`; at `previous_invested_amount = 500`,
`transactions_balance_amount = -800` it equals 300. -/
theorem c2_result :
    (∀ inv : Investment, inv.result =
      -(inv.previous_invested_amount + inv.transactions_balance_amount)) ∧
    ({ Investment.fresh sampleStock with
        previous_invested_amount := 500
        transactions_balance_amount := -800 } : Investment).result = 300 := by
  refine ⟨fun inv => rfl, ?_⟩
  norm_num [Investment.result]

/-- **C3, counterexample.** An `Investment` with `current_quantity = 100`
to which one SELL transaction of quantity 100 is applied is *not* closed:
`add_transaction` never touches `current_quantity`, so `is_closed()`
remains `false`, contradicting the claim that it becomes `true`. -/
theorem c3_counterexample :
    stockInv100.current_quantity = 100 ∧
    sellTx100.operation = .op .sell ∧ sellTx100.quantity = 100 ∧
    (stockInv100.add_transaction sellTx100).1.is_closed = false := by
  refine ⟨rfl, rfl, rfl, ?_⟩
  decide

/-- **C3, amended.** For every `Investment` with `current_quantity = 100`
and every SELL transaction of quantity 100 dated `D`, the call succeeds,
`current_quantity` stays 100 so `is_closed()` is `false`, and
`latest_sell_date` becomes `D` when `D` is strictly later than the stored
`latest_sell_date` and is otherwise unchanged. -/
theorem c3_sell_keeps_position_open (inv : Investment) (t : Transaction)
    (hq : inv.current_quantity = 100) (hop : t.operation = .op .sell) :
    (inv.add_transaction t).2 = none ∧
    (inv.add_transaction t).1.current_quantity = 100 ∧
    (inv.add_transaction t).1.is_closed = false ∧
    (inv.add_transaction t).1.latest_sell_date =
      (if inv.latest_sell_date.ltb t.date then t.date
        else inv.latest_sell_date) := by
  simp [Investment.add_transaction, hop, Investment.is_closed, hq]

/-- Witness for the amended C3 at a concrete input. -/
theorem c3_sell_keeps_position_open_witness :
    stockInv100.current_quantity = 100 ∧
    sellTx100.operation = .op .sell ∧
    ((stockInv100.add_transaction sellTx100).1.is_closed = false ∧
      (stockInv100.add_transaction sellTx100).1.latest_sell_date =
        ⟨2023, 5, 10⟩) :=
  ⟨rfl, rfl,
    (c3_sell_keeps_position_open stockInv100 sellTx100 rfl rfl).2.2.1,
    by
      have h := (c3_sell_keeps_position_open stockInv100 sellTx100 rfl rfl).2.2.2
      simpa using h⟩

/-- **C4.** On a BUY, `add_transaction` adds the quantity to
`transactions_balance_quantity` and the total amount to both
`transactions_balance_amount` and `current_invested_amount`, leaving
`latest_sell_date` alone; on a SELL it subtracts the same three values
and replaces `latest_sell_date` with the transaction's date exactly when
that date is strictly later. -/
theorem c4_add_transaction_effects (inv : Investment) (t : Transaction) :
    (t.operation = .op .buy →
      (inv.add_transaction t).1.transactions_balance_quantity =
        inv.transactions_balance_quantity + (t.quantity : ℚ) ∧
      (inv.add_transaction t).1.transactions_balance_amount =
        inv.transactions_balance_amount + t.total_amount ∧
      (inv.add_transaction t).1.current_invested_amount =
        inv.current_invested_amount + t.total_amount ∧
      (inv.add_transaction t).1.latest_sell_date = inv.latest_sell_date) ∧
    (t.operation = .op .sell →
      (inv.add_transaction t).1.transactions_balance_quantity =
        inv.transactions_balance_quantity - (t.quantity : ℚ) ∧
      (inv.add_transaction t).1.transactions_balance_amount =
        inv.transactions_balance_amount - t.total_amount ∧
      (inv.add_transaction t).1.current_invested_amount =
        inv.current_invested_amount - t.total_amount ∧
      (inv.add_transaction t).1.latest_sell_date =
        (if inv.latest_sell_date.ltb t.date then t.date
          else inv.latest_sell_date)) := by
  constructor <;> intro hop <;> simp [Investment.add_transaction, hop]

/-- Witness for C4 at a concrete input: the sample SELL updates the
balances of `stockInv100` as stated. -/
theorem c4_add_transaction_effects_witness :
    sellTx100.operation = .op .sell ∧
    ((stockInv100.add_transaction
        sellTx100).1.transactions_balance_quantity = -100 ∧
      (stockInv100.add_transaction sellTx100).1.transactions_balance_amount
        = -800) := by
  have h := (c4_add_transaction_effects stockInv100 sellTx100).2 rfl
  refine ⟨rfl, ?_, ?_⟩
  · rw [h.1]; norm_num [stockInv100, sellTx100, Investment.fresh]
  · rw [h.2.1]; norm_num [stockInv100, sellTx100, Investment.fresh]

/-- **C5.** On an operation that is neither BUY nor SELL,
`add_transaction` raises (returns the error message) without changing any
field of the investment and without appending the transaction, and the
message contains the asset's key. -/
theorem c5_invalid_operation (inv : Investment) (t : Transaction)
    (s : String) (hop : t.operation = .invalid s) :
    inv.add_transaction t =
      (inv, some (invalidTransactionMessage inv.asset.key s)) ∧
    ∃ pre post,
      invalidTransactionMessage inv.asset.key s =
        pre ++ inv.asset.key ++ post := by
  refine ⟨?_, "Invalid transaction for ", ": operation = " ++ s, ?_⟩
  · simp [Investment.add_transaction, hop]
  · simp [invalidTransactionMessage, String.append_assoc]

/-- Witness for C5 at a concrete input: a `DIVIDEND`-like operation value
over the sample stock raises without mutating the investment. -/
theorem c5_invalid_operation_witness :
    (⟨⟨2023, 7, 1⟩, .invalid "Operation.DIVIDEND", "NuInvest", "PETR4",
        10, 1, 10⟩ : Transaction).operation =
      .invalid "Operation.DIVIDEND" ∧
    stockInv100.add_transaction
        ⟨⟨2023, 7, 1⟩, .invalid "Operation.DIVIDEND", "NuInvest", "PETR4",
          10, 1, 10⟩ =
      (stockInv100,
        some (invalidTransactionMessage stockInv100.asset.key
          "Operation.DIVIDEND")) :=
  ⟨rfl,
    (c5_invalid_operation stockInv100 _ "Operation.DIVIDEND" rfl).1⟩

/-- **C6.** `has_missing_transactions()` is `false` for every investment
over a non-listed asset, and for a listed asset is `true` exactly when
`previous_quantity + transactions_balance_quantity` differs from
`current_quantity`. -/
theorem c6_has_missing_transactions (inv : Investment) :
    (inv.asset.is_listed = false →
      inv.has_missing_transactions = false) ∧
    (inv.asset.is_listed = true →
      (inv.has_missing_transactions = true ↔
        inv.previous_quantity + inv.transactions_balance_quantity ≠
          inv.current_quantity)) := by
  constructor <;> intro h <;>
    simp [Investment.has_missing_transactions, h]

/-- Witness for C6 at concrete inputs: over the non-listed sample CDB the
flag is `false` even though the quantities do not reconcile; over the
listed sample stock with unexplained quantity 100 it is `true`. -/
theorem c6_has_missing_transactions_witness :
    (sampleCDB.is_listed = false ∧
      ({ Investment.fresh sampleCDB with
          current_quantity := 100 } : Investment).has_missing_transactions
        = false) ∧
    (sampleStock.is_listed = true ∧
      stockInv100.has_missing_transactions = true) := by
  refine ⟨⟨rfl, ?_⟩, rfl, ?_⟩
  · exact (c6_has_missing_transactions _).1 rfl
  · rw [(c6_has_missing_transactions stockInv100).2 rfl]
    norm_num [stockInv100, Investment.fresh]

/-- **C10.** `add_transaction` never changes `current_quantity`,
`previous_quantity` or `previous_invested_amount`, whatever the operation
kind; consequently no sequence of transactions alone changes
`is_closed()`. -/
theorem c10_transaction_frame :
    (∀ (inv : Investment) (t : Transaction),
      (inv.add_transaction t).1.current_quantity = inv.current_quantity ∧
      (inv.add_transaction t).1.previous_quantity = inv.previous_quantity ∧
      (inv.add_transaction t).1.previous_invested_amount =
        inv.previous_invested_amount ∧
      (inv.add_transaction t).1.is_closed = inv.is_closed) ∧
    (∀ (inv : Investment) (ts : List Transaction),
      (inv.applyTransactions ts).is_closed = inv.is_closed) := by
  have hone : ∀ (inv : Investment) (t : Transaction),
      (inv.add_transaction t).1.current_quantity = inv.current_quantity ∧
      (inv.add_transaction t).1.previous_quantity = inv.previous_quantity ∧
      (inv.add_transaction t).1.previous_invested_amount =
        inv.previous_invested_amount := by
    intro inv t
    rcases t with ⟨d, op, b, tk, q, pr, amt⟩
    rcases op with o | s
    · cases o <;> simp [Investment.add_transaction]
    · simp [Investment.add_transaction]
  refine ⟨fun inv t => ⟨(hone inv t).1, (hone inv t).2.1, (hone inv t).2.2,
    by simp [Investment.is_closed, (hone inv t).1]⟩, ?_⟩
  intro inv ts
  induction ts generalizing inv with
  | nil => rfl
  | cons t rest ih =>
    have hq := (hone inv t).1
    simp only [Investment.applyTransactions, List.foldl_cons] at ih ⊢
    rw [show (rest.foldl (fun i t => (i.add_transaction t).1)
        (inv.add_transaction t).1).is_closed =
        ((inv.add_transaction t).1).is_closed from ih _]
    simp [Investment.is_closed, hq]

/-- **C7.** Every concrete asset kind exposes the full capability surface
the core consumes: `key` and `is_listed` are defined (with the
listed/not-listed classification matching the kind) for every
exchange-listed and every fixed-income variant, `get_cnpj` answers for
fixed income as well, and the CNPJ backfill `update_cnpj` is total and
never disturbs the asset's identity key or its classification — so the
accumulator and registry calls that consume the surface are
well-defined on every asset. -/
theorem c7_capability_surface :
    (∀ (name broker : String) (k : ListedKind) (d : ListedData),
      (Asset.mk name broker (.listed k d)).key = d.ticker ∧
      (Asset.mk name broker (.listed k d)).is_listed = true) ∧
    (∀ (name broker : String) (k : FixedIncomeKind)
        (d : FixedIncomeData),
      (Asset.mk name broker (.fixedIncome k d)).key =
        name ++ " - " ++ broker ∧
      (Asset.mk name broker (.fixedIncome k d)).is_listed = false ∧
      (Asset.mk name broker (.fixedIncome k d)).get_cnpj = "N/A") ∧
    (∀ (a : Asset) (c : String),
      (a.update_cnpj c).key = a.key ∧
      (a.update_cnpj c).is_listed = a.is_listed) := by
  refine ⟨fun _ _ _ _ => ⟨rfl, rfl⟩, fun _ _ _ _ => ⟨rfl, rfl, rfl⟩, ?_⟩
  intro a c
  rcases a with ⟨n, b, ⟨k, d⟩ | ⟨k, d⟩⟩
  · constructor <;>
      · simp only [Asset.update_cnpj]
        split <;> simp [Asset.key, Asset.is_listed]
  · simp [Asset.update_cnpj]

/-- **C8.** A transaction whose ticker has no entry in the registry is
skipped: `add_transactions` leaves the registry exactly as it would be
after processing the remaining transactions alone, records the warning
for the skipped ticker, and the skip itself changes no entry (hence
neither the key set nor the size). -/
theorem c8_unknown_ticker_skipped (inv : Inventory) (t : Transaction)
    (rest : List Transaction)
    (h : lookupEntry inv.investments t.ticker = none) :
    inv.add_transactions (t :: rest) =
      ((inv.add_transactions rest).1,
        missingTickerWarning t.ticker :: (inv.add_transactions rest).2.1,
        (inv.add_transactions rest).2.2) ∧
    (inv.add_transactions [t]).1.investments = inv.investments := by
  constructor
  · simp [Inventory.add_transactions, h]
  · simp [Inventory.add_transactions, h]

/-- Witness for C8 at a concrete input: the empty registry has no entry
for the sample transaction's ticker; the transaction is skipped with its
warning, no error is raised, and the registry is unchanged. -/
theorem c8_unknown_ticker_skipped_witness :
    lookupEntry Inventory.empty.investments sellTx100.ticker = none ∧
    Inventory.empty.add_transactions [sellTx100] =
      ((Inventory.empty.add_transactions []).1,
        missingTickerWarning sellTx100.ticker ::
          (Inventory.empty.add_transactions []).2.1,
        (Inventory.empty.add_transactions []).2.2) ∧
    (Inventory.empty.add_transactions [sellTx100]).1.investments =
      Inventory.empty.investments :=
  ⟨rfl, c8_unknown_ticker_skipped Inventory.empty sellTx100 [] rfl⟩

/-- **C9.** Registry invariants over any sequence of merge calls starting
from a fresh `Inventory()`: the key list is duplicate-free (exactly one
`Investment` per distinct asset key); each further call only appends new
keys at the end, so `get_investments()` — the stored values, unfiltered
and unsorted — comes back in first-creation order; and a key seen for the
first time is entered as a fresh all-zero `Investment` to which the
matching accumulator operation is then applied. -/
theorem c9_registry_invariants (ops : List InventoryOp) :
    (Inventory.applyOps ops).keys.Nodup ∧
    (∀ op : InventoryOp, ∃ new,
      (Inventory.applyOps (ops ++ [op])).keys =
        (Inventory.applyOps ops).keys ++ new) ∧
    (Inventory.applyOps ops).get_investments =
      (Inventory.applyOps ops).investments.map Prod.snd ∧
    (Inventory.applyOps ops).get_investments.length =
      (Inventory.applyOps ops).keys.length ∧
    (∀ (inv : Inventory) (p : Position),
      lookupEntry inv.investments p.asset.key = none →
      lookupEntry (inv.currentPositionStep p).investments p.asset.key =
        some ((Investment.fresh p.asset).add_current_position p)) ∧
    (∀ (inv : Inventory) (p : Position),
      lookupEntry inv.investments p.asset.key = none →
      lookupEntry (inv.previousPositionStep p).investments p.asset.key =
        some ((Investment.fresh p.asset).add_previous_position p)) := by
  refine ⟨?_, ?_, rfl, ?_, ?_, ?_⟩
  · refine foldl_keys_nodup _ ?_ ops Inventory.empty ?_
    · exact fun inv op => applyOp_keys_nodup inv op
    · simp [Inventory.empty, Inventory.keys]
  · intro op
    rw [Inventory.applyOps, List.foldl_append]
    exact applyOp_keys_ext _ op
  · simp [Inventory.get_investments, Inventory.keys]
  · intro inv p h
    simp [Inventory.currentPositionStep, h, lookupEntry_setEntry_self]
  · intro inv p h
    simp [Inventory.previousPositionStep, h, lookupEntry_setEntry_self]

/-- Witness for C9 at a concrete input: after merging one current
position over the sample stock and one previous position over the sample
CDB, the keys are duplicate-free; and a first-seen key holds the fresh
all-zero investment with the position applied. -/
theorem c9_registry_invariants_witness :
    (Inventory.applyOps
      [.currents [⟨sampleStock, 100, 1000⟩],
        .previousPositions [sampleCDBPosition]]).keys.Nodup ∧
    lookupEntry
        (Inventory.empty.currentPositionStep
          ⟨sampleStock, 100, 1000⟩).investments sampleStock.key =
      some ((Investment.fresh sampleStock).add_current_position
        ⟨sampleStock, 100, 1000⟩) :=
  ⟨(c9_registry_invariants
      [.currents [⟨sampleStock, 100, 1000⟩],
        .previousPositions [sampleCDBPosition]]).1,
    (c9_registry_invariants []).2.2.2.2.1 Inventory.empty
      ⟨sampleStock, 100, 1000⟩ rfl⟩
